import Mathlib

/-!
Shallow embedding of `src/aws_idc_list_user_permissions/list_utils.py`.

Python dictionaries are modelled as association lists with Python's
dict-assignment semantics (`dictInsert`: replace the first entry with the
key in place, otherwise append at the end; insertion order is preserved).
Field values are modelled by a JSON-like `Value` type.  The remote boto3
client is modelled as a structure of oracle functions (`Client`): each
paginated list operation yields the list of pages the service would return
(or an error), and each describe/get operation yields a single result or
an error.  `build_full_result` models boto3's paginator
`paginate(...).build_full_result()`, which concatenates all pages of the
result key.  Python exceptions are modelled with `Except Err`;
`Err.resourceNotFound` models `client.exceptions.ResourceNotFoundException`.
-/

mutual

/-- Value of a field of a service-returned record: a JSON-like value,
    rich enough to express Python truthiness. -/
inductive Value where
  | str : String → Value
  | bool : Bool → Value
  | int : Int → Value
  | obj : Fields → Value
  | arr : ValueList → Value
deriving DecidableEq

/-- Fields of a nested object value (a Python dict nested inside a record). -/
inductive Fields where
  | fnil : Fields
  | fcons : String → Value → Fields → Fields
deriving DecidableEq

/-- Elements of a nested list value. -/
inductive ValueList where
  | vnil : ValueList
  | vcons : Value → ValueList → ValueList
deriving DecidableEq

end

/-- Conversion of a Lean list of values into a nested list value. -/
def ValueList.ofList : List Value → ValueList
  | [] => ValueList.vnil
  | v :: rest => ValueList.vcons v (ValueList.ofList rest)

/-- Python truthiness of a value (`bool(v)`): `False`, `0`, the empty
    string, the empty dict and the empty list are falsy. -/
def truthy : Value → Bool
  | Value.str s => s ≠ ""
  | Value.bool b => b
  | Value.int n => n ≠ 0
  | Value.obj f => f ≠ Fields.fnil
  | Value.arr l => l ≠ ValueList.vnil

/-- Record returned by the remote service: a Python dict with string keys,
    as an association list in insertion order. -/
abbrev Record := List (String × Value)

/-- Python dict lookup `d[k]` (the first entry with key `k`, if any). -/
def dictGet {κ α : Type} [DecidableEq κ] (d : List (κ × α)) (k : κ) : Option α :=
  (d.find? (fun p => p.1 = k)).map Prod.snd

/-- Python dict assignment `d[k] = v`: replace the entry with key `k` in
    place, keeping insertion order, or append a new entry at the end. -/
def dictInsert {κ α : Type} [DecidableEq κ] : List (κ × α) → κ → α → List (κ × α)
  | [], k, v => [(k, v)]
  | (k1, v1) :: rest, k, v =>
    if k1 = k then (k, v) :: rest else (k1, v1) :: dictInsert rest k v

/-- In-place mutation `f` of the value stored at key `k` (models Python's
    `d[k].update-like` mutation `d[k][field] = ...`; used only at keys that
    are present). -/
def dictMapAt {κ α : Type} [DecidableEq κ] : List (κ × α) → κ → (α → α) → List (κ × α)
  | [], _, _ => []
  | (k1, v1) :: rest, k, f =>
    if k1 = k then (k1, f v1) :: rest else (k1, v1) :: dictMapAt rest k f

/-- Errors raised by remote calls.  `resourceNotFound` models
    `client.exceptions.ResourceNotFoundException`; every other exception
    (including `KeyError` inside this module's own code) is `other`. -/
inductive Err where
  | resourceNotFound : Err
  | other : String → Err
deriving DecidableEq

/-- Remote boto3 client, as oracle functions.  Paginated operations
    return the pages the service would produce for the given arguments;
    describe/get operations return one payload.  Arguments mirror the
    call sites in the source (identity-store id, instance ARN,
    permission-set ARN, principal id, principal type). -/
structure Client where
  list_instances_pages : Except Err (List (List Record))
  list_accounts_pages : Except Err (List (List Record))
  list_users_pages : String → Except Err (List (List Record))
  list_groups_pages : String → Except Err (List (List Record))
  list_permission_sets_pages : String → Except Err (List (List String))
  list_account_assignments_pages : String → String → String → Except Err (List (List Record))
  list_managed_policies_pages : String → String → Except Err (List (List Value))
  describe_permission_set : String → String → Except Err Record
  get_inline_policy_for_permission_set : String → String → Except Err Value
  get_permissions_boundary_for_permission_set : String → String → Except Err Value

/-- Modelled from boto3 (external collaborator, spec §9): the paginator's
    `paginate(...).build_full_result()` fully drains the page sequence and
    concatenates the pages of the result key, preserving order. -/
def build_full_result {α : Type} (pages : List (List α)) : List α :=
  pages.flatten

/-- Python `item[field]` inside a dict comprehension: `KeyError` when the
    field is absent. -/
def itemField (item : Record) (field : String) : Except Err Value :=
  match dictGet item field with
  | some v => Except.ok v
  | none => Except.error (Err.other ("KeyError: " ++ field))

/-- Left fold of the dict comprehension over the remaining items, carrying
    the lookup built so far. -/
def dictOfItemsAux (field : String) :
    List Record → List (Value × Record) → Except Err (List (Value × Record))
  | [], lookup => Except.ok lookup
  | item :: rest, lookup => do
    let k ← itemField item field
    dictOfItemsAux field rest (dictInsert lookup k item)

/-- Dict comprehension `\x7bitem[field]: item for item in items\x7d`:
    later items with the same key overwrite earlier ones. -/
def dictOfItems (field : String) (items : List Record) :
    Except Err (List (Value × Record)) :=
  dictOfItemsAux field items []

/-- Embedding of `list_instances`. -/
def list_instances (client : Client) : Except Err (List Record) := do
  let instances := build_full_result (← client.list_instances_pages)
  pure instances

/-- Embedding of `list_accounts`: all accounts keyed by `Id`. -/
def list_accounts (client : Client) : Except Err (List (Value × Record)) := do
  let accounts := build_full_result (← client.list_accounts_pages)
  let account_lookup ← dictOfItems "Id" accounts
  pure account_lookup

/-- Embedding of `list_users`: all users keyed by `UserId`. -/
def list_users (client : Client) (identity_store_id : String) :
    Except Err (List (Value × Record)) := do
  let users := build_full_result (← client.list_users_pages identity_store_id)
  let user_lookup ← dictOfItems "UserId" users
  pure user_lookup

/-- Embedding of `list_groups`. -/
def list_groups (client : Client) (identity_store_id : String) :
    Except Err (List Record) := do
  let groups := build_full_result (← client.list_groups_pages identity_store_id)
  pure groups

/-- Embedding of `list_permission_sets`. -/
def list_permission_sets (client : Client) (instance_arn : String) :
    Except Err (List String) := do
  let permission_sets := build_full_result (← client.list_permission_sets_pages instance_arn)
  pure permission_sets

/-- Embedding of `list_user_assignments`: all account assignments for the
    principal (typed `USER`), each record rebuilt with
    `OriginalPrincipalId = user_id` added (Python
    `dict(assignment, OriginalPrincipalId=user_id)`). -/
def list_user_assignments (client : Client) (user_id : String) (instance_arn : String) :
    Except Err (List Record) := do
  let user_assignments :=
    build_full_result (← client.list_account_assignments_pages instance_arn user_id "USER")
  let result := user_assignments.map
    (fun assignment => dictInsert assignment "OriginalPrincipalId" (Value.str user_id))
  pure result

/-- Embedding of `list_managed_policy_permission_set`. -/
def list_managed_policy_permission_set (client : Client) (permission_set_arn : String)
    (instance_arn : String) : Except Err (List Value) := do
  let managed_policies :=
    build_full_result (← client.list_managed_policies_pages instance_arn permission_set_arn)
  pure managed_policies

/-- Body of the `for permission_set in permission_sets` loop of
    `describe_permissions_sets`, threading the mutable lookup dict. -/
def describe_permissions_sets_loop (client : Client) (instance_arn : String) :
    List String → List (String × Record) → Except Err (List (String × Record))
  | [], permission_set_lookup => Except.ok permission_set_lookup
  | permission_set :: rest, permission_set_lookup => do
    let permission_set_description ←
      client.describe_permission_set instance_arn permission_set
    let permission_set_lookup :=
      dictInsert permission_set_lookup permission_set permission_set_description
    let permission_set_inline_policy ←
      client.get_inline_policy_for_permission_set instance_arn permission_set
    let permission_set_lookup :=
      dictMapAt permission_set_lookup permission_set
        (fun r => dictInsert r "inline_policy" permission_set_inline_policy)
    let permission_set_permission_boundary ←
      match client.get_permissions_boundary_for_permission_set instance_arn permission_set with
      | Except.ok v => Except.ok v
      | Except.error Err.resourceNotFound =>
        -- No permission boundary found for this permission set
        Except.ok (Value.bool false)
      | Except.error e => Except.error e
    let permission_set_lookup :=
      if ¬ truthy permission_set_permission_boundary then
        dictMapAt permission_set_lookup permission_set
          (fun r => dictInsert r "permission_boundary" permission_set_permission_boundary)
      else permission_set_lookup
    let managed_policies ←
      list_managed_policy_permission_set client permission_set instance_arn
    let permission_set_lookup :=
      dictMapAt permission_set_lookup permission_set
        (fun r => dictInsert r "managed_policies " (Value.arr (ValueList.ofList managed_policies)))
    describe_permissions_sets_loop client instance_arn rest permission_set_lookup

/-- Embedding of `describe_permissions_sets`: lookup dictionary with one
    key per permission-set ARN, each value the describe payload enriched
    with `inline_policy`, conditionally `permission_boundary`, and
    `managed_policies ` (trailing space as in the source). -/
def describe_permissions_sets (client : Client) (permission_sets : List String)
    (instance_arn : String) : Except Err (List (String × Record)) :=
  describe_permissions_sets_loop client instance_arn permission_sets []

/-! ### Lemmas about the dictionary model -/

theorem dictGet_nil {κ α : Type} [DecidableEq κ] (k : κ) :
    dictGet ([] : List (κ × α)) k = none := rfl

theorem dictGet_cons {κ α : Type} [DecidableEq κ] (k1 : κ) (v1 : α)
    (d : List (κ × α)) (k : κ) :
    dictGet ((k1, v1) :: d) k = if k1 = k then some v1 else dictGet d k := by
  by_cases h : k1 = k <;> simp [dictGet, List.find?_cons, h]

theorem dictGet_dictInsert_self {κ α : Type} [DecidableEq κ]
    (d : List (κ × α)) (k : κ) (v : α) :
    dictGet (dictInsert d k v) k = some v := by
  induction d with
  | nil => simp [dictInsert, dictGet_cons]
  | cons p rest ih =>
    obtain ⟨k1, v1⟩ := p
    by_cases h : k1 = k
    · simp [dictInsert, h, dictGet_cons]
    · simp [dictInsert, h, dictGet_cons, ih]

theorem dictGet_dictInsert_ne {κ α : Type} [DecidableEq κ]
    (d : List (κ × α)) (k k2 : κ) (v : α) (hne : k2 ≠ k) :
    dictGet (dictInsert d k v) k2 = dictGet d k2 := by
  have hkk2 : ¬ k = k2 := fun h => hne h.symm
  induction d with
  | nil => simp [dictInsert, dictGet_cons, dictGet_nil, hkk2]
  | cons p rest ih =>
    obtain ⟨k1, v1⟩ := p
    by_cases h : k1 = k
    · simp [dictInsert, if_pos h, dictGet_cons, h, hkk2]
    · simp [dictInsert, if_neg h, dictGet_cons, ih]

theorem dictMapAt_dictInsert {κ α : Type} [DecidableEq κ]
    (d : List (κ × α)) (k : κ) (v : α) (f : α → α) :
    dictMapAt (dictInsert d k v) k f = dictInsert d k (f v) := by
  induction d with
  | nil => simp [dictInsert, dictMapAt]
  | cons p rest ih =>
    obtain ⟨k1, v1⟩ := p
    by_cases h : k1 = k
    · simp [dictInsert, dictMapAt, h]
    · simp [dictInsert, dictMapAt, h, ih]

theorem mem_dictInsert {κ α : Type} [DecidableEq κ]
    (d : List (κ × α)) (k : κ) (v : α) (p : κ × α) :
    p ∈ dictInsert d k v → p = (k, v) ∨ p ∈ d := by
  induction d with
  | nil => simp [dictInsert]
  | cons q rest ih =>
    obtain ⟨k1, v1⟩ := q
    by_cases h : k1 = k
    · simp only [dictInsert, if_pos h, List.mem_cons]
      rintro (h1 | h1)
      · exact Or.inl h1
      · exact Or.inr (Or.inr h1)
    · simp only [dictInsert, if_neg h, List.mem_cons]
      rintro (h1 | h1)
      · exact Or.inr (Or.inl h1)
      · rcases ih h1 with h2 | h2
        · exact Or.inl h2
        · exact Or.inr (Or.inr h2)

theorem keys_dictInsert {κ α : Type} [DecidableEq κ]
    (d : List (κ × α)) (k : κ) (v : α) (k2 : κ) :
    k2 ∈ (dictInsert d k v).map Prod.fst ↔ k2 = k ∨ k2 ∈ d.map Prod.fst := by
  induction d with
  | nil => simp [dictInsert]
  | cons p rest ih =>
    obtain ⟨k1, v1⟩ := p
    by_cases h : k1 = k
    · subst h
      simp [dictInsert]
    · simp only [dictInsert, if_neg h, List.map_cons, List.mem_cons, ih]
      tauto

theorem filter_dictInsert {κ α : Type} [DecidableEq κ]
    (d : List (κ × α)) (k : κ) (v : α) :
    (dictInsert d k v).filter (fun p => p.1 ≠ k) = d.filter (fun p => p.1 ≠ k) := by
  induction d with
  | nil => simp [dictInsert]
  | cons p rest ih =>
    obtain ⟨k1, v1⟩ := p
    by_cases h : k1 = k
    · simp [dictInsert, if_pos h, List.filter_cons, h]
    · simp only [ne_eq, decide_not] at ih
      simp [dictInsert, if_neg h, List.filter_cons, h, ih]

theorem except_bind_ok {ε α β : Type} (a : α) (f : α → Except ε β) :
    (Except.ok a >>= f : Except ε β) = f a := rfl

theorem except_bind_error {ε α β : Type} (e : ε) (f : α → Except ε β) :
    ((Except.error e : Except ε α) >>= f) = Except.error e := rfl

theorem except_pure_eq {ε α : Type} (a : α) :
    (pure a : Except ε α) = Except.ok a := rfl

/-- Uniform page lengths: `n` pages of `k` items each flatten to `n * k`
    items. -/
theorem length_flatten_uniform {α : Type} (k : Nat) :
    ∀ pages : List (List α), (∀ p ∈ pages, p.length = k) →
      pages.flatten.length = pages.length * k := by
  intro pages
  induction pages with
  | nil => intro _; simp
  | cons p rest ih =>
    intro h
    have hp : p.length = k := h p (List.mem_cons_self _ _)
    have hrest : ∀ q ∈ rest, q.length = k := fun q hq => h q (List.mem_cons_of_mem _ hq)
    simp [List.flatten_cons, List.length_append, hp, ih hrest, Nat.succ_mul, Nat.add_comm]

/-! ### Claims about the assignment lister -/

theorem list_user_assignments_ok (client : Client) (user_id instance_arn : String)
    (pages : List (List Record))
    (hp : client.list_account_assignments_pages instance_arn user_id "USER" = Except.ok pages) :
    list_user_assignments client user_id instance_arn =
      Except.ok (pages.flatten.map
        (fun assignment => dictInsert assignment "OriginalPrincipalId" (Value.str user_id))) := by
  unfold list_user_assignments
  rw [hp, except_bind_ok]
  rfl

/-- C1: every record in the result of `list_user_assignments` has its
    `OriginalPrincipalId` field equal to the queried `user_id`, regardless
    of the record's own `PrincipalId` and `PrincipalType`. -/
theorem C1_original_principal_id_always_user (client : Client)
    (user_id instance_arn : String) (result : List Record)
    (h : list_user_assignments client user_id instance_arn = Except.ok result) :
    ∀ r ∈ result, dictGet r "OriginalPrincipalId" = some (Value.str user_id) := by
  intro r hr
  unfold list_user_assignments at h
  cases hp : client.list_account_assignments_pages instance_arn user_id "USER" with
  | error e => rw [hp, except_bind_error] at h; exact absurd h (by simp)
  | ok pages =>
    rw [hp, except_bind_ok] at h
    simp only [except_pure_eq, Except.ok.injEq] at h
    subst h
    rcases List.mem_map.mp hr with ⟨a, _, ha⟩
    rw [← ha]
    exact dictGet_dictInsert_self a "OriginalPrincipalId" (Value.str user_id)

/-- C8: apart from the added `OriginalPrincipalId`, every returned
    assignment record carries exactly the fields of the corresponding
    service-returned record, in order: `PrincipalId` stays whatever the
    service returned and no other field is altered, added or removed. -/
theorem C8_other_fields_unchanged (client : Client) (user_id instance_arn : String)
    (pages : List (List Record)) (result : List Record)
    (hp : client.list_account_assignments_pages instance_arn user_id "USER" = Except.ok pages)
    (h : list_user_assignments client user_id instance_arn = Except.ok result) :
    result.length = pages.flatten.length ∧
    ∀ i : Fin result.length, ∀ j : Fin pages.flatten.length, i.val = j.val →
      ((result.get i).filter (fun p => p.1 ≠ "OriginalPrincipalId")
          = (pages.flatten.get j).filter (fun p => p.1 ≠ "OriginalPrincipalId")) ∧
      (∀ k, k ≠ "OriginalPrincipalId" →
          dictGet (result.get i) k = dictGet (pages.flatten.get j) k) := by
  rw [list_user_assignments_ok client user_id instance_arn pages hp] at h
  simp only [Except.ok.injEq] at h
  subst h
  refine ⟨List.length_map _ _, ?_⟩
  intro i j hij
  have hget : (pages.flatten.map
      (fun assignment => dictInsert assignment "OriginalPrincipalId" (Value.str user_id))).get i
      = dictInsert (pages.flatten.get j) "OriginalPrincipalId" (Value.str user_id) := by
    rw [List.get_map]
    congr 1
    exact congrArg _ (Fin.ext hij)
  rw [hget]
  constructor
  · exact filter_dictInsert (pages.flatten.get j) "OriginalPrincipalId" (Value.str user_id)
  · intro k hk
    exact dictGet_dictInsert_ne (pages.flatten.get j) "OriginalPrincipalId" k (Value.str user_id) hk

/-- C10: the returned records are fresh dictionaries built from the
    service records, and a pre-existing `OriginalPrincipalId` field in a
    service-returned record is overwritten with the queried `user_id`. -/
theorem C10_original_principal_id_overwritten (client : Client)
    (user_id instance_arn : String) (pages : List (List Record)) (result : List Record)
    (hp : client.list_account_assignments_pages instance_arn user_id "USER" = Except.ok pages)
    (h : list_user_assignments client user_id instance_arn = Except.ok result) :
    result = pages.flatten.map
      (fun assignment => dictInsert assignment "OriginalPrincipalId" (Value.str user_id)) ∧
    ∀ a ∈ pages.flatten, ∀ w, dictGet a "OriginalPrincipalId" = some w →
      dictGet (dictInsert a "OriginalPrincipalId" (Value.str user_id)) "OriginalPrincipalId"
        = some (Value.str user_id) := by
  rw [list_user_assignments_ok client user_id instance_arn pages hp] at h
  simp only [Except.ok.injEq] at h
  refine ⟨h.symm, ?_⟩
  intro a _ w _
  exact dictGet_dictInsert_self a "OriginalPrincipalId" (Value.str user_id)

/-! ### Claims about the entity listers and pagination -/

theorem list_groups_ok (client : Client) (identity_store_id : String)
    (pages : List (List Record))
    (hp : client.list_groups_pages identity_store_id = Except.ok pages) :
    list_groups client identity_store_id = Except.ok pages.flatten := by
  unfold list_groups
  rw [hp, except_bind_ok]
  rfl

theorem list_permission_sets_ok (client : Client) (instance_arn : String)
    (pages : List (List String))
    (hp : client.list_permission_sets_pages instance_arn = Except.ok pages) :
    list_permission_sets client instance_arn = Except.ok pages.flatten := by
  unfold list_permission_sets
  rw [hp, except_bind_ok]
  rfl

/-- C6: the entity listers drain all pages of the remote paginated
    operation and return exactly their concatenation in page order (no
    client-side sorting or filtering); for `n` pages of `k` items each the
    result has exactly `n * k` items. -/
theorem C6_pagination_drains_all_pages (client : Client)
    (identity_store_id instance_arn : String) (n k : Nat)
    (gpages : List (List Record)) (ppages : List (List String))
    (hg : client.list_groups_pages identity_store_id = Except.ok gpages)
    (hps : client.list_permission_sets_pages instance_arn = Except.ok ppages) :
    (list_groups client identity_store_id = Except.ok gpages.flatten) ∧
    (list_permission_sets client instance_arn = Except.ok ppages.flatten) ∧
    (gpages.length = n → (∀ p ∈ gpages, p.length = k) → gpages.flatten.length = n * k) ∧
    (ppages.length = n → (∀ p ∈ ppages, p.length = k) → ppages.flatten.length = n * k) := by
  refine ⟨list_groups_ok client identity_store_id gpages hg,
    list_permission_sets_ok client instance_arn ppages hps, ?_, ?_⟩
  · intro hn hk
    rw [length_flatten_uniform k gpages hk, hn]
  · intro hn hk
    rw [length_flatten_uniform k ppages hk, hn]

/-! ### Claims about the user/account lookup dictionaries -/

theorem getLast?_cons_eq {α : Type} : ∀ (a : α) (l : List α),
    (a :: l).getLast? = (l.getLast? <|> some a)
  | _, [] => rfl
  | a, b :: m => by
    rw [List.getLast?_cons_cons, getLast?_cons_eq b m]
    cases hm : m.getLast? <;> simp

theorem getLast?_some_mem {α : Type} : ∀ (l : List α) (a : α),
    l.getLast? = some a → a ∈ l
  | [], a, h => by simp at h
  | b :: m, a, h => by
    rw [getLast?_cons_eq] at h
    cases hm : m.getLast? with
    | none =>
      rw [hm] at h
      simp at h
      simp [h]
    | some c =>
      rw [hm] at h
      simp at h
      exact List.mem_cons_of_mem _ (h ▸ getLast?_some_mem m c hm)

theorem nodup_keys_dictInsert {κ α : Type} [DecidableEq κ]
    (d : List (κ × α)) (k : κ) (v : α) (h : (d.map Prod.fst).Nodup) :
    ((dictInsert d k v).map Prod.fst).Nodup := by
  induction d with
  | nil => simp [dictInsert]
  | cons p rest ih =>
    obtain ⟨k1, v1⟩ := p
    simp only [List.map_cons, List.nodup_cons] at h
    by_cases hk : k1 = k
    · simp only [dictInsert, if_pos hk, List.map_cons, List.nodup_cons]
      exact ⟨hk ▸ h.1, h.2⟩
    · simp only [dictInsert, if_neg hk, List.map_cons, List.nodup_cons]
      refine ⟨?_, ih h.2⟩
      intro hmem
      rcases (keys_dictInsert rest k v k1).mp hmem with h1 | h1
      · exact hk h1
      · exact h.1 h1

theorem itemField_ok (item : Record) (field : String) (k : Value)
    (h : itemField item field = Except.ok k) : dictGet item field = some k := by
  unfold itemField at h
  cases hg : dictGet item field with
  | none => rw [hg] at h; exact absurd h (by simp)
  | some v => rw [hg] at h; cases h; rfl

theorem dictOfItemsAux_ok_get (field : String) (k : Value) :
    ∀ (items : List Record) (acc lookup : List (Value × Record)),
      dictOfItemsAux field items acc = Except.ok lookup →
      dictGet lookup k =
        ((items.filter (fun i => dictGet i field = some k)).getLast? <|> dictGet acc k)
  | [], acc, lookup, h => by
    simp only [dictOfItemsAux, Except.ok.injEq] at h
    subst h
    simp
  | item :: rest, acc, lookup, h => by
    unfold dictOfItemsAux at h
    cases hf : itemField item field with
    | error e => rw [hf, except_bind_error] at h; exact absurd h (by simp)
    | ok ki =>
      rw [hf, except_bind_ok] at h
      have ih := dictOfItemsAux_ok_get field k rest (dictInsert acc ki item) lookup h
      have hik : dictGet item field = some ki := itemField_ok item field ki hf
      by_cases hk : ki = k
      · subst hk
        rw [List.filter_cons_of_pos (by simp [hik]), getLast?_cons_eq, ih,
          dictGet_dictInsert_self]
        cases hl : (rest.filter (fun i => dictGet i field = some ki)).getLast? <;> simp
      · rw [List.filter_cons_of_neg (by simp [hik, hk]), ih,
          dictGet_dictInsert_ne acc ki k item (fun hh => hk hh.symm)]

theorem dictOfItemsAux_ok_keys (field : String) :
    ∀ (items : List Record) (acc lookup : List (Value × Record)),
      dictOfItemsAux field items acc = Except.ok lookup →
      (∀ k, k ∈ lookup.map Prod.fst ↔
        (∃ i ∈ items, dictGet i field = some k) ∨ k ∈ acc.map Prod.fst) ∧
      ((acc.map Prod.fst).Nodup → (lookup.map Prod.fst).Nodup)
  | [], acc, lookup, h => by
    simp only [dictOfItemsAux, Except.ok.injEq] at h
    subst h
    simp
  | item :: rest, acc, lookup, h => by
    unfold dictOfItemsAux at h
    cases hf : itemField item field with
    | error e => rw [hf, except_bind_error] at h; exact absurd h (by simp)
    | ok ki =>
      rw [hf, except_bind_ok] at h
      have ih := dictOfItemsAux_ok_keys field rest (dictInsert acc ki item) lookup h
      have hik : dictGet item field = some ki := itemField_ok item field ki hf
      constructor
      · intro k
        rw [(ih.1 k), keys_dictInsert]
        simp only [List.mem_cons, hik]
        constructor
        · rintro (⟨i, hi, hik2⟩ | hkk | hmem)
          · exact Or.inl ⟨i, Or.inr hi, hik2⟩
          · exact Or.inl ⟨item, Or.inl rfl, by rw [hik, hkk]⟩
          · exact Or.inr hmem
        · rintro (⟨i, hi | hi, hik2⟩ | hmem)
          · subst hi
            rw [hik] at hik2
            exact Or.inr (Or.inl (Option.some.inj hik2).symm)
          · exact Or.inl ⟨i, hi, hik2⟩
          · exact Or.inr (Or.inr hmem)
      · intro hnd
        exact ih.2 (nodup_keys_dictInsert acc ki item hnd)

theorem list_users_ok_elim (client : Client) (identity_store_id : String)
    (lookup : List (Value × Record))
    (h : list_users client identity_store_id = Except.ok lookup) :
    ∃ pages, client.list_users_pages identity_store_id = Except.ok pages ∧
      dictOfItems "UserId" pages.flatten = Except.ok lookup := by
  unfold list_users at h
  cases hp : client.list_users_pages identity_store_id with
  | error e => rw [hp, except_bind_error] at h; exact absurd h (by simp)
  | ok pages =>
    rw [hp, except_bind_ok] at h
    simp only [] at h
    refine ⟨pages, rfl, ?_⟩
    cases hd : dictOfItems "UserId" (build_full_result pages) with
    | error e => rw [hd, except_bind_error] at h; exact absurd h (by simp)
    | ok lk =>
      rw [hd, except_bind_ok] at h
      simp only [except_pure_eq, Except.ok.injEq] at h
      subst h
      exact hd

theorem list_accounts_ok_elim (client : Client)
    (lookup : List (Value × Record))
    (h : list_accounts client = Except.ok lookup) :
    ∃ pages, client.list_accounts_pages = Except.ok pages ∧
      dictOfItems "Id" pages.flatten = Except.ok lookup := by
  unfold list_accounts at h
  cases hp : client.list_accounts_pages with
  | error e => rw [hp, except_bind_error] at h; exact absurd h (by simp)
  | ok pages =>
    rw [hp, except_bind_ok] at h
    simp only [] at h
    refine ⟨pages, rfl, ?_⟩
    cases hd : dictOfItems "Id" (build_full_result pages) with
    | error e => rw [hd, except_bind_error] at h; exact absurd h (by simp)
    | ok lk =>
      rw [hd, except_bind_ok] at h
      simp only [except_pure_eq, Except.ok.injEq] at h
      subst h
      exact hd

theorem dictOfItems_get (field : String) (items : List Record)
    (lookup : List (Value × Record)) (h : dictOfItems field items = Except.ok lookup)
    (k : Value) :
    dictGet lookup k = (items.filter (fun i => dictGet i field = some k)).getLast? := by
  have hg := dictOfItemsAux_ok_get field k items [] lookup h
  rw [dictGet_nil] at hg
  cases hl : (items.filter (fun i => dictGet i field = some k)).getLast? with
  | none => rw [hl] at hg; simpa using hg
  | some r2 => rw [hl] at hg; simpa using hg

theorem dictOfItems_roundtrip (field : String) (items : List Record)
    (lookup : List (Value × Record)) (h : dictOfItems field items = Except.ok lookup)
    (k : Value) (r : Record) (hkr : dictGet lookup k = some r) :
    dictGet r field = some k := by
  have hg := dictOfItems_get field items lookup h k
  rw [hkr] at hg
  have hmem := getLast?_some_mem _ r hg.symm
  have hfil := List.mem_filter.mp hmem
  exact of_decide_eq_true hfil.2

theorem dictOfItems_length (field : String) (items : List Record)
    (lookup : List (Value × Record)) (h : dictOfItems field items = Except.ok lookup) :
    lookup.length = (items.filterMap (fun i => dictGet i field)).toFinset.card := by
  have hk := dictOfItemsAux_ok_keys field items [] lookup h
  have hnd : (lookup.map Prod.fst).Nodup := hk.2 (by simp)
  have hfin : (lookup.map Prod.fst).toFinset
      = (items.filterMap (fun i => dictGet i field)).toFinset := by
    ext x
    simp only [List.mem_toFinset]
    rw [hk.1 x]
    simp [List.mem_filterMap]
  calc lookup.length = (lookup.map Prod.fst).length := (List.length_map _ _).symm
    _ = (lookup.map Prod.fst).toFinset.card := (List.toFinset_card_of_nodup hnd).symm
    _ = _ := by rw [hfin]

/-- C5: in the lookup dictionaries built by `list_users` and
    `list_accounts`, every key equals the natural identifier (`UserId`
    resp. `Id`) of its value. -/
theorem C5_lookup_key_is_natural_id (client : Client) (identity_store_id : String)
    (ulookup alookup : List (Value × Record))
    (hu : list_users client identity_store_id = Except.ok ulookup)
    (ha : list_accounts client = Except.ok alookup) :
    (∀ k r, dictGet ulookup k = some r → dictGet r "UserId" = some k) ∧
    (∀ k r, dictGet alookup k = some r → dictGet r "Id" = some k) := by
  obtain ⟨upages, _, hud⟩ := list_users_ok_elim client identity_store_id ulookup hu
  obtain ⟨apages, _, had⟩ := list_accounts_ok_elim client alookup ha
  exact ⟨fun k r hkr => dictOfItems_roundtrip "UserId" upages.flatten ulookup hud k r hkr,
    fun k r hkr => dictOfItems_roundtrip "Id" apages.flatten alookup had k r hkr⟩

/-- C9: when the service returns several records sharing the same
    identifier, the lookup keeps exactly one entry per identifier — the
    last record in service order — so its size is the number of distinct
    identifiers, not the number of records. -/
theorem C9_duplicate_identifiers_last_wins (client : Client) (identity_store_id : String)
    (upages apages : List (List Record)) (ulookup alookup : List (Value × Record))
    (hup : client.list_users_pages identity_store_id = Except.ok upages)
    (hap : client.list_accounts_pages = Except.ok apages)
    (hu : list_users client identity_store_id = Except.ok ulookup)
    (ha : list_accounts client = Except.ok alookup) :
    ((ulookup.map Prod.fst).Nodup ∧
      (∀ k, dictGet ulookup k =
        (upages.flatten.filter (fun i => dictGet i "UserId" = some k)).getLast?) ∧
      ulookup.length = (upages.flatten.filterMap (fun i => dictGet i "UserId")).toFinset.card) ∧
    ((alookup.map Prod.fst).Nodup ∧
      (∀ k, dictGet alookup k =
        (apages.flatten.filter (fun i => dictGet i "Id" = some k)).getLast?) ∧
      alookup.length = (apages.flatten.filterMap (fun i => dictGet i "Id")).toFinset.card) := by
  obtain ⟨upages2, hup2, hud⟩ := list_users_ok_elim client identity_store_id ulookup hu
  obtain ⟨apages2, hap2, had⟩ := list_accounts_ok_elim client alookup ha
  rw [hup] at hup2
  rw [hap] at hap2
  cases hup2
  cases hap2
  refine ⟨⟨(dictOfItemsAux_ok_keys "UserId" upages.flatten [] ulookup hud).2 (by simp),
      fun k => dictOfItems_get "UserId" upages.flatten ulookup hud k,
      dictOfItems_length "UserId" upages.flatten ulookup hud⟩,
    ⟨(dictOfItemsAux_ok_keys "Id" apages.flatten [] alookup had).2 (by simp),
      fun k => dictOfItems_get "Id" apages.flatten alookup had k,
      dictOfItems_length "Id" apages.flatten alookup had⟩⟩

/-! ### Claims about the permission-set detail aggregator -/

theorem list_managed_policy_permission_set_ok (client : Client)
    (permission_set_arn instance_arn : String) (mpages : List (List Value))
    (hm : client.list_managed_policies_pages instance_arn permission_set_arn
      = Except.ok mpages) :
    list_managed_policy_permission_set client permission_set_arn instance_arn
      = Except.ok mpages.flatten := by
  unfold list_managed_policy_permission_set
  rw [hm, except_bind_ok]
  rfl

/-- Record stored for one permission set when all of its remote calls have
    succeeded (`pbv` is the fetched boundary, or the `False` sentinel after
    a not-found error; it is written only when falsy, as in the source). -/
def describeRecord (desc : Record) (ip pbv : Value) (mps : List Value) : Record :=
  dictInsert
    (if ¬ truthy pbv then
      dictInsert (dictInsert desc "inline_policy" ip) "permission_boundary" pbv
    else dictInsert desc "inline_policy" ip)
    "managed_policies " (Value.arr (ValueList.ofList mps))

theorem describe_step_lookup (lookup : List (String × Record)) (ps : String)
    (desc : Record) (ip pbv : Value) (mps : List Value) :
    dictMapAt
      (if ¬ truthy pbv then
        dictMapAt (dictMapAt (dictInsert lookup ps desc) ps
            (fun r => dictInsert r "inline_policy" ip)) ps
          (fun r => dictInsert r "permission_boundary" pbv)
      else dictMapAt (dictInsert lookup ps desc) ps
            (fun r => dictInsert r "inline_policy" ip)) ps
      (fun r => dictInsert r "managed_policies " (Value.arr (ValueList.ofList mps)))
    = dictInsert lookup ps (describeRecord desc ip pbv mps) := by
  by_cases hc : truthy pbv
  · simp [hc, dictMapAt_dictInsert, describeRecord]
  · simp [hc, dictMapAt_dictInsert, describeRecord]

theorem list_managed_policy_permission_set_error (client : Client)
    (permission_set_arn instance_arn : String) (e : Err)
    (hm : client.list_managed_policies_pages instance_arn permission_set_arn
      = Except.error e) :
    list_managed_policy_permission_set client permission_set_arn instance_arn
      = Except.error e := by
  unfold list_managed_policy_permission_set
  rw [hm, except_bind_error]

theorem describe_loop_cons_elim (client : Client) (instance_arn ps : String)
    (rest : List String) (lookup m : List (String × Record))
    (h : describe_permissions_sets_loop client instance_arn (ps :: rest) lookup
      = Except.ok m) :
    ∃ desc ip pbv mpages,
      client.describe_permission_set instance_arn ps = Except.ok desc ∧
      client.get_inline_policy_for_permission_set instance_arn ps = Except.ok ip ∧
      (client.get_permissions_boundary_for_permission_set instance_arn ps = Except.ok pbv
        ∨ (client.get_permissions_boundary_for_permission_set instance_arn ps
            = Except.error Err.resourceNotFound ∧ pbv = Value.bool false)) ∧
      client.list_managed_policies_pages instance_arn ps = Except.ok mpages ∧
      describe_permissions_sets_loop client instance_arn rest
        (dictInsert lookup ps (describeRecord desc ip pbv mpages.flatten))
        = Except.ok m := by
  unfold describe_permissions_sets_loop at h
  cases hd : client.describe_permission_set instance_arn ps with
  | error e => simp only [hd, except_bind_error] at h; exact absurd h (by simp)
  | ok desc =>
  simp only [hd, except_bind_ok] at h
  cases hi : client.get_inline_policy_for_permission_set instance_arn ps with
  | error e => simp only [hi, except_bind_error] at h; exact absurd h (by simp)
  | ok ip =>
  simp only [hi, except_bind_ok] at h
  cases hb : client.get_permissions_boundary_for_permission_set instance_arn ps with
  | ok pbv =>
    simp only [hb, except_bind_ok] at h
    cases hmp : client.list_managed_policies_pages instance_arn ps with
    | error e =>
      rw [list_managed_policy_permission_set_error client ps instance_arn e hmp,
        except_bind_error] at h
      exact absurd h (by simp)
    | ok mpages =>
      rw [list_managed_policy_permission_set_ok client ps instance_arn mpages hmp,
        except_bind_ok] at h
      rw [describe_step_lookup] at h
      exact ⟨desc, ip, pbv, mpages, rfl, rfl, Or.inl rfl, rfl, h⟩
  | error e =>
    cases e with
    | resourceNotFound =>
      simp only [hb, except_bind_ok] at h
      cases hmp : client.list_managed_policies_pages instance_arn ps with
      | error e2 =>
        rw [list_managed_policy_permission_set_error client ps instance_arn e2 hmp,
          except_bind_error] at h
        exact absurd h (by simp)
      | ok mpages =>
        rw [list_managed_policy_permission_set_ok client ps instance_arn mpages hmp,
          except_bind_ok] at h
        rw [describe_step_lookup] at h
        exact ⟨desc, ip, Value.bool false, mpages, rfl, rfl, Or.inr ⟨rfl, rfl⟩, rfl, h⟩
    | other s => simp only [hb, except_bind_error] at h; exact absurd h (by simp)

theorem describe_loop_cons_ok (client : Client) (instance_arn ps : String)
    (rest : List String) (lookup : List (String × Record))
    (desc : Record) (ip pbv : Value) (mpages : List (List Value))
    (hd : client.describe_permission_set instance_arn ps = Except.ok desc)
    (hi : client.get_inline_policy_for_permission_set instance_arn ps = Except.ok ip)
    (hb : client.get_permissions_boundary_for_permission_set instance_arn ps = Except.ok pbv
      ∨ (client.get_permissions_boundary_for_permission_set instance_arn ps
          = Except.error Err.resourceNotFound ∧ pbv = Value.bool false))
    (hmp : client.list_managed_policies_pages instance_arn ps = Except.ok mpages) :
    describe_permissions_sets_loop client instance_arn (ps :: rest) lookup
      = describe_permissions_sets_loop client instance_arn rest
          (dictInsert lookup ps (describeRecord desc ip pbv mpages.flatten)) := by
  conv_lhs => unfold describe_permissions_sets_loop
  rcases hb with hb | ⟨hb, hpbv⟩
  · simp only [hd, except_bind_ok, hi, hb,
      list_managed_policy_permission_set_ok client ps instance_arn mpages hmp,
      describe_step_lookup]
  · subst hpbv
    simp only [hd, except_bind_ok, hi, hb,
      list_managed_policy_permission_set_ok client ps instance_arn mpages hmp,
      describe_step_lookup]

theorem describe_loop_all_ok (client : Client) (instance_arn : String) :
    ∀ (pss : List String) (lookup : List (String × Record)),
      (∀ ps ∈ pss,
        (∃ desc, client.describe_permission_set instance_arn ps = Except.ok desc) ∧
        (∃ ip, client.get_inline_policy_for_permission_set instance_arn ps = Except.ok ip) ∧
        (∃ mpages, client.list_managed_policies_pages instance_arn ps = Except.ok mpages) ∧
        ((∃ pbv, client.get_permissions_boundary_for_permission_set instance_arn ps
            = Except.ok pbv) ∨
          client.get_permissions_boundary_for_permission_set instance_arn ps
            = Except.error Err.resourceNotFound)) →
      ∃ m, describe_permissions_sets_loop client instance_arn pss lookup = Except.ok m
  | [], lookup, _ => ⟨lookup, rfl⟩
  | ps :: rest, lookup, hcalls => by
    obtain ⟨⟨desc, hd⟩, ⟨ip, hi⟩, ⟨mpages, hmp⟩, hb⟩ :=
      hcalls ps (List.mem_cons_self _ _)
    have hrest : ∀ q ∈ rest, _ := fun q hq => hcalls q (List.mem_cons_of_mem _ hq)
    rcases hb with ⟨pbv, hb⟩ | hb
    · obtain ⟨m, hm⟩ := describe_loop_all_ok client instance_arn rest
        (dictInsert lookup ps (describeRecord desc ip pbv mpages.flatten)) hrest
      exact ⟨m, by
        rw [describe_loop_cons_ok client instance_arn ps rest lookup desc ip pbv mpages
          hd hi (Or.inl hb) hmp]
        exact hm⟩
    · obtain ⟨m, hm⟩ := describe_loop_all_ok client instance_arn rest
        (dictInsert lookup ps (describeRecord desc ip (Value.bool false) mpages.flatten)) hrest
      exact ⟨m, by
        rw [describe_loop_cons_ok client instance_arn ps rest lookup desc ip
          (Value.bool false) mpages hd hi (Or.inr ⟨hb, rfl⟩) hmp]
        exact hm⟩

theorem describe_loop_ok_preserve (client : Client) (instance_arn : String) :
    ∀ (pss : List String) (lookup m : List (String × Record)),
      describe_permissions_sets_loop client instance_arn pss lookup = Except.ok m →
      ∀ k, k ∉ pss → dictGet m k = dictGet lookup k
  | [], lookup, m, h, k, _ => by
    unfold describe_permissions_sets_loop at h
    cases h
    rfl
  | ps :: rest, lookup, m, h, k, hk => by
    obtain ⟨desc, ip, pbv, mpages, _, _, _, _, h2⟩ :=
      describe_loop_cons_elim client instance_arn ps rest lookup m h
    have hkps : k ≠ ps := fun he => hk (he ▸ List.mem_cons_self _ _)
    have hkrest : k ∉ rest := fun he => hk (List.mem_cons_of_mem _ he)
    rw [describe_loop_ok_preserve client instance_arn rest _ m h2 k hkrest,
      dictGet_dictInsert_ne lookup ps k _ hkps]

theorem describe_loop_ok_get (client : Client) (instance_arn : String) :
    ∀ (pss : List String) (lookup m : List (String × Record)),
      describe_permissions_sets_loop client instance_arn pss lookup = Except.ok m →
      ∀ ps ∈ pss, ∃ desc ip pbv mpages,
        client.describe_permission_set instance_arn ps = Except.ok desc ∧
        client.get_inline_policy_for_permission_set instance_arn ps = Except.ok ip ∧
        (client.get_permissions_boundary_for_permission_set instance_arn ps = Except.ok pbv
          ∨ (client.get_permissions_boundary_for_permission_set instance_arn ps
              = Except.error Err.resourceNotFound ∧ pbv = Value.bool false)) ∧
        client.list_managed_policies_pages instance_arn ps = Except.ok mpages ∧
        dictGet m ps = some (describeRecord desc ip pbv mpages.flatten)
  | ps1 :: rest, lookup, m, h, ps, hps => by
    obtain ⟨desc, ip, pbv, mpages, hd, hi, hb, hmp, h2⟩ :=
      describe_loop_cons_elim client instance_arn ps1 rest lookup m h
    rcases List.mem_cons.mp hps with he | hin
    · subst he
      by_cases hr : ps ∈ rest
      · exact describe_loop_ok_get client instance_arn rest _ m h2 ps hr
      · refine ⟨desc, ip, pbv, mpages, hd, hi, hb, hmp, ?_⟩
        rw [describe_loop_ok_preserve client instance_arn rest _ m h2 ps hr,
          dictGet_dictInsert_self]
    · exact describe_loop_ok_get client instance_arn rest _ m h2 ps hin

theorem describe_loop_ok_keys (client : Client) (instance_arn : String) :
    ∀ (pss : List String) (lookup m : List (String × Record)),
      describe_permissions_sets_loop client instance_arn pss lookup = Except.ok m →
      ∀ k, k ∈ m.map Prod.fst ↔ k ∈ pss ∨ k ∈ lookup.map Prod.fst
  | [], lookup, m, h, k => by
    unfold describe_permissions_sets_loop at h
    cases h
    simp
  | ps :: rest, lookup, m, h, k => by
    obtain ⟨desc, ip, pbv, mpages, _, _, _, _, h2⟩ :=
      describe_loop_cons_elim client instance_arn ps rest lookup m h
    rw [describe_loop_ok_keys client instance_arn rest _ m h2 k, keys_dictInsert]
    simp only [List.mem_cons]
    tauto

theorem dictGet_isSome_iff_mem_keys {κ α : Type} [DecidableEq κ]
    (d : List (κ × α)) (k : κ) :
    (dictGet d k).isSome ↔ k ∈ d.map Prod.fst := by
  induction d with
  | nil => simp [dictGet_nil]
  | cons p rest ih =>
    obtain ⟨k1, v1⟩ := p
    by_cases h : k1 = k
    · simp [dictGet_cons, h]
    · have h2 : ¬ k = k1 := fun he => h he.symm
      simp [dictGet_cons, h, h2, ih]

theorem describeRecord_inline_policy (desc : Record) (ip pbv : Value) (mps : List Value) :
    dictGet (describeRecord desc ip pbv mps) "inline_policy" = some ip := by
  unfold describeRecord
  rw [dictGet_dictInsert_ne _ _ _ _ (by decide)]
  by_cases hc : truthy pbv
  · rw [if_neg (by simp [hc]), dictGet_dictInsert_self]
  · rw [if_pos (by simp [hc]), dictGet_dictInsert_ne _ _ _ _ (by decide),
      dictGet_dictInsert_self]

theorem describeRecord_managed_policies (desc : Record) (ip pbv : Value) (mps : List Value) :
    dictGet (describeRecord desc ip pbv mps) "managed_policies "
      = some (Value.arr (ValueList.ofList mps)) := by
  unfold describeRecord
  exact dictGet_dictInsert_self _ _ _

theorem describeRecord_boundary_falsy (desc : Record) (ip pbv : Value) (mps : List Value)
    (hc : truthy pbv = false) :
    dictGet (describeRecord desc ip pbv mps) "permission_boundary" = some pbv := by
  unfold describeRecord
  rw [dictGet_dictInsert_ne _ _ _ _ (by decide), if_pos (by simp [hc]),
    dictGet_dictInsert_self]

theorem describeRecord_boundary_truthy (desc : Record) (ip pbv : Value) (mps : List Value)
    (hc : truthy pbv = true) (hdesc : dictGet desc "permission_boundary" = none) :
    dictGet (describeRecord desc ip pbv mps) "permission_boundary" = none := by
  unfold describeRecord
  rw [dictGet_dictInsert_ne _ _ _ _ (by decide), if_neg (by simp [hc]),
    dictGet_dictInsert_ne _ _ _ _ (by decide)]
  exact hdesc

/-- C2: under the remote API shape (the describe payload itself carries no
    `permission_boundary` field), the aggregator writes the
    `permission_boundary` key only when the fetched boundary value is
    falsy: a truthy boundary returned by the remote call is not stored, and
    whenever the key is present in an output record its value is falsy
    (the `False` sentinel after a not-found error, or a falsy fetched
    value). -/
theorem C2_boundary_written_only_when_falsy (client : Client)
    (permission_sets : List String) (instance_arn : String)
    (m : List (String × Record))
    (hclean : ∀ ps desc, client.describe_permission_set instance_arn ps = Except.ok desc →
      dictGet desc "permission_boundary" = none)
    (h : describe_permissions_sets client permission_sets instance_arn = Except.ok m) :
    (∀ ps ∈ permission_sets, ∀ pbv,
      client.get_permissions_boundary_for_permission_set instance_arn ps = Except.ok pbv →
      truthy pbv = true →
      ∀ r, dictGet m ps = some r → dictGet r "permission_boundary" = none) ∧
    (∀ k r v, dictGet m k = some r →
      dictGet r "permission_boundary" = some v → truthy v = false) := by
  unfold describe_permissions_sets at h
  constructor
  · intro ps hps pbv hb htr r hr
    obtain ⟨desc, ip, pbv2, mpages, hd, _, hb2, _, hget⟩ :=
      describe_loop_ok_get client instance_arn permission_sets [] m h ps hps
    rw [hget] at hr
    cases hr
    rcases hb2 with hb2 | ⟨hb2, _⟩
    · rw [hb] at hb2
      cases hb2
      exact describeRecord_boundary_truthy desc ip pbv _ htr (hclean ps desc hd)
    · rw [hb] at hb2
      exact absurd hb2 (by simp)
  · intro k r v hr hv
    have hkmem : k ∈ m.map Prod.fst :=
      (dictGet_isSome_iff_mem_keys m k).mp (by rw [hr]; rfl)
    have hkps : k ∈ permission_sets := by
      rcases (describe_loop_ok_keys client instance_arn permission_sets [] m h k).mp
        hkmem with h2 | h2
      · exact h2
      · simp at h2
    obtain ⟨desc, ip, pbv, mpages, hd, _, hb2, _, hget⟩ :=
      describe_loop_ok_get client instance_arn permission_sets [] m h k hkps
    rw [hget] at hr
    cases hr
    by_cases htr : truthy pbv
    · rw [describeRecord_boundary_truthy desc ip pbv _ htr (hclean k desc hd)] at hv
      exact absurd hv (by simp)
    · have hfal : truthy pbv = false := by
        cases hcc : truthy pbv
        · rfl
        · exact absurd hcc htr
      rw [describeRecord_boundary_falsy desc ip pbv _ hfal] at hv
      cases hv
      exact hfal

/-- C3: a resource-not-found error from the permission-boundary lookup is
    recovered: with every other remote call succeeding, the aggregator
    returns normally and the affected permission set's record carries
    `permission_boundary = False`. -/
theorem C3_boundary_not_found_recovered (client : Client)
    (permission_sets : List String) (instance_arn : String)
    (hcalls : ∀ ps ∈ permission_sets,
      (∃ desc, client.describe_permission_set instance_arn ps = Except.ok desc) ∧
      (∃ ip, client.get_inline_policy_for_permission_set instance_arn ps = Except.ok ip) ∧
      (∃ mpages, client.list_managed_policies_pages instance_arn ps = Except.ok mpages) ∧
      ((∃ pbv, client.get_permissions_boundary_for_permission_set instance_arn ps
          = Except.ok pbv) ∨
        client.get_permissions_boundary_for_permission_set instance_arn ps
          = Except.error Err.resourceNotFound))
    (ps : String) (hps : ps ∈ permission_sets)
    (hnf : client.get_permissions_boundary_for_permission_set instance_arn ps
      = Except.error Err.resourceNotFound) :
    ∃ m, describe_permissions_sets client permission_sets instance_arn = Except.ok m ∧
      ∃ r, dictGet m ps = some r ∧
        dictGet r "permission_boundary" = some (Value.bool false) := by
  obtain ⟨m, hm⟩ := describe_loop_all_ok client instance_arn permission_sets [] hcalls
  refine ⟨m, hm, ?_⟩
  obtain ⟨desc, ip, pbv, mpages, _, _, hb, _, hget⟩ :=
    describe_loop_ok_get client instance_arn permission_sets [] m hm ps hps
  rcases hb with hb | ⟨_, hpbv⟩
  · rw [hnf] at hb
    exact absurd hb (by simp)
  · subst hpbv
    exact ⟨describeRecord desc ip (Value.bool false) mpages.flatten, hget,
      describeRecord_boundary_falsy desc ip (Value.bool false) _ rfl⟩

/-- C4: on a successful run, the output mapping of
    `describe_permissions_sets` has exactly the input ARNs as its key set,
    and every value carries an `inline_policy` entry and a
    `managed_policies ` entry (key with trailing space), even when those
    fetched values are empty. -/
theorem C4_keys_and_mandatory_fields (client : Client)
    (permission_sets : List String) (instance_arn : String)
    (m : List (String × Record))
    (h : describe_permissions_sets client permission_sets instance_arn = Except.ok m) :
    (∀ k, k ∈ m.map Prod.fst ↔ k ∈ permission_sets) ∧
    (∀ k r, dictGet m k = some r →
      (dictGet r "inline_policy").isSome ∧ (dictGet r "managed_policies ").isSome) := by
  unfold describe_permissions_sets at h
  constructor
  · intro k
    rw [describe_loop_ok_keys client instance_arn permission_sets [] m h k]
    simp
  · intro k r hr
    have hkmem : k ∈ m.map Prod.fst :=
      (dictGet_isSome_iff_mem_keys m k).mp (by rw [hr]; rfl)
    have hkps : k ∈ permission_sets := by
      rcases (describe_loop_ok_keys client instance_arn permission_sets [] m h k).mp
        hkmem with h2 | h2
      · exact h2
      · simp at h2
    obtain ⟨desc, ip, pbv, mpages, _, _, _, _, hget⟩ :=
      describe_loop_ok_get client instance_arn permission_sets [] m h k hkps
    rw [hget] at hr
    cases hr
    constructor
    · rw [describeRecord_inline_policy]; rfl
    · rw [describeRecord_managed_policies]; rfl

/-- C7: remote-call errors other than the boundary not-found case are
    never swallowed: a successful aggregation run implies every remote
    call it performs succeeded (the boundary call possibly raising only
    the recovered not-found error), and each lister propagates a failure
    of its paginated call unchanged, returning no result. -/
theorem C7_errors_propagate_uncaught (client : Client)
    (permission_sets : List String)
    (instance_arn identity_store_id user_id : String) :
    (∀ m, describe_permissions_sets client permission_sets instance_arn = Except.ok m →
      ∀ ps ∈ permission_sets,
        (∃ desc, client.describe_permission_set instance_arn ps = Except.ok desc) ∧
        (∃ ip, client.get_inline_policy_for_permission_set instance_arn ps = Except.ok ip) ∧
        (∃ mpages, client.list_managed_policies_pages instance_arn ps = Except.ok mpages) ∧
        ((∃ pbv, client.get_permissions_boundary_for_permission_set instance_arn ps
            = Except.ok pbv) ∨
          client.get_permissions_boundary_for_permission_set instance_arn ps
            = Except.error Err.resourceNotFound)) ∧
    (∀ e, client.list_groups_pages identity_store_id = Except.error e →
      list_groups client identity_store_id = Except.error e) ∧
    (∀ e, client.list_permission_sets_pages instance_arn = Except.error e →
      list_permission_sets client instance_arn = Except.error e) ∧
    (∀ e, client.list_account_assignments_pages instance_arn user_id "USER" = Except.error e →
      list_user_assignments client user_id instance_arn = Except.error e) ∧
    (∀ e, client.list_users_pages identity_store_id = Except.error e →
      list_users client identity_store_id = Except.error e) ∧
    (∀ e, client.list_accounts_pages = Except.error e →
      list_accounts client = Except.error e) := by
  refine ⟨?_, ?_, ?_, ?_, ?_, ?_⟩
  · intro m h ps hps
    unfold describe_permissions_sets at h
    obtain ⟨desc, ip, pbv, mpages, hd, hi, hb, hmp, _⟩ :=
      describe_loop_ok_get client instance_arn permission_sets [] m h ps hps
    refine ⟨⟨desc, hd⟩, ⟨ip, hi⟩, ⟨mpages, hmp⟩, ?_⟩
    rcases hb with hb | ⟨hb, _⟩
    · exact Or.inl ⟨pbv, hb⟩
    · exact Or.inr hb
  · intro e he
    unfold list_groups
    rw [he, except_bind_error]
  · intro e he
    unfold list_permission_sets
    rw [he, except_bind_error]
  · intro e he
    unfold list_user_assignments
    rw [he, except_bind_error]
  · intro e he
    unfold list_users
    rw [he, except_bind_error]
  · intro e he
    unfold list_accounts
    rw [he, except_bind_error]

/-! ### Concrete service data for witnesses -/

/-- Sample account records. -/
def acct1 : Record := [("Id", Value.str "111111111111"), ("Name", Value.str "prod")]

def acct2 : Record := [("Id", Value.str "222222222222"), ("Name", Value.str "dev")]

/-- Sample user records; `user1` and `user1b` share the same `UserId`. -/
def user1 : Record := [("UserId", Value.str "u-1"), ("UserName", Value.str "alice")]

def user1b : Record := [("UserId", Value.str "u-1"), ("UserName", Value.str "alice-renamed")]

def user2 : Record := [("UserId", Value.str "u-2"), ("UserName", Value.str "bob")]

/-- Sample group record. -/
def grp (g : String) : Record := [("GroupId", Value.str g)]

/-- Assignment provisioned through a group: the service reports the
    `GroupId` as `PrincipalId`. -/
def assign1 : Record :=
  [("AccountId", Value.str "111111111111"),
   ("PermissionSetArn", Value.str "arn:A"),
   ("PrincipalType", Value.str "GROUP"),
   ("PrincipalId", Value.str "g-42")]

/-- Assignment that already carries an `OriginalPrincipalId` field. -/
def assign2 : Record :=
  [("AccountId", Value.str "222222222222"),
   ("PermissionSetArn", Value.str "arn:B"),
   ("PrincipalType", Value.str "USER"),
   ("PrincipalId", Value.str "u-1"),
   ("OriginalPrincipalId", Value.str "stale")]

/-- Concrete client: two accounts in two pages, three users (one duplicate
    `UserId`) over two pages, six groups over three pages of two, two
    permission sets, two assignments; permission set `arn:A` has no
    permission boundary (not-found) while `arn:B` has a truthy one. -/
def testClient : Client where
  list_instances_pages := Except.ok [[[("InstanceArn", Value.str "arn:inst")]]]
  list_accounts_pages := Except.ok [[acct1], [acct2]]
  list_users_pages := fun _ => Except.ok [[user1, user1b], [user2]]
  list_groups_pages := fun _ =>
    Except.ok [[grp "g-1", grp "g-2"], [grp "g-3", grp "g-4"], [grp "g-5", grp "g-6"]]
  list_permission_sets_pages := fun _ => Except.ok [["arn:A", "arn:B"]]
  list_account_assignments_pages := fun _ _ _ => Except.ok [[assign1], [assign2]]
  list_managed_policies_pages := fun _ _ => Except.ok [[]]
  describe_permission_set := fun _ ps =>
    Except.ok [("Name", Value.str "PS"), ("PermissionSetArn", Value.str ps)]
  get_inline_policy_for_permission_set := fun _ _ => Except.ok (Value.str "")
  get_permissions_boundary_for_permission_set := fun _ ps =>
    if ps = "arn:A" then Except.error Err.resourceNotFound
    else Except.ok (Value.obj (Fields.fcons "ManagedPolicyArn" (Value.str "arn:mp") Fields.fnil))

/-- Client whose group pagination fails. -/
def errClient : Client :=
  { testClient with list_groups_pages := fun _ => Except.error (Err.other "boom") }

/-- Output record of `describe_permissions_sets` for `arn:A` under
    `testClient` (boundary not found, hence the `False` sentinel). -/
def psRecordA : Record :=
  [("Name", Value.str "PS"), ("PermissionSetArn", Value.str "arn:A"),
   ("inline_policy", Value.str ""), ("permission_boundary", Value.bool false),
   ("managed_policies ", Value.arr ValueList.vnil)]

/-- Output record of `describe_permissions_sets` for `arn:B` under
    `testClient` (truthy boundary fetched, hence no `permission_boundary`
    key). -/
def psRecordB : Record :=
  [("Name", Value.str "PS"), ("PermissionSetArn", Value.str "arn:B"),
   ("inline_policy", Value.str ""),
   ("managed_policies ", Value.arr ValueList.vnil)]

/-- Output mapping of `describe_permissions_sets testClient` on
    `["arn:A", "arn:B"]`. -/
def testPsLookup : List (String × Record) :=
  [("arn:A", psRecordA), ("arn:B", psRecordB)]

/-- Result of `list_user_assignments testClient "u-123"`. -/
def testAssignmentsResult : List Record :=
  List.map (fun a => dictInsert a "OriginalPrincipalId" (Value.str "u-123"))
    [assign1, assign2]

/-! ### Witnesses -/

/-- Witness for C1: the group-provisioned assignment still gets
    `OriginalPrincipalId = "u-123"`. -/
theorem C1_witness :
    dictGet (dictInsert assign1 "OriginalPrincipalId" (Value.str "u-123"))
      "OriginalPrincipalId" = some (Value.str "u-123") :=
  C1_original_principal_id_always_user testClient "u-123" "arn:inst"
    testAssignmentsResult rfl
    (dictInsert assign1 "OriginalPrincipalId" (Value.str "u-123")) (by decide)

/-- Witness for C8 at the first returned assignment. -/
theorem C8_witness :
    (dictInsert assign1 "OriginalPrincipalId" (Value.str "u-123")).filter
        (fun p => p.1 ≠ "OriginalPrincipalId")
      = assign1.filter (fun p => p.1 ≠ "OriginalPrincipalId") :=
  ((C8_other_fields_unchanged testClient "u-123" "arn:inst" [[assign1], [assign2]]
      testAssignmentsResult rfl rfl).2 ⟨0, by decide⟩ ⟨0, by decide⟩ rfl).1

/-- Witness for C10: the stale `OriginalPrincipalId` of `assign2` is
    overwritten. -/
theorem C10_witness :
    dictGet (dictInsert assign2 "OriginalPrincipalId" (Value.str "u-123"))
      "OriginalPrincipalId" = some (Value.str "u-123") :=
  (C10_original_principal_id_overwritten testClient "u-123" "arn:inst"
      [[assign1], [assign2]] testAssignmentsResult rfl rfl).2
    assign2 (by decide) (Value.str "stale") rfl

/-- Witness for C5 at the user lookup entry for `u-1`. -/
theorem C5_witness :
    dictGet user1b "UserId" = some (Value.str "u-1") :=
  (C5_lookup_key_is_natural_id testClient "d-store"
      [(Value.str "u-1", user1b), (Value.str "u-2", user2)]
      [(Value.str "111111111111", acct1), (Value.str "222222222222", acct2)]
      rfl rfl).1 (Value.str "u-1") user1b rfl

/-- Witness for C9: three user records with a duplicated `UserId` collapse
    to a two-entry lookup. -/
theorem C9_witness :
    ([(Value.str "u-1", user1b), (Value.str "u-2", user2)] : List (Value × Record)).length
      = (([user1, user1b, user2] : List Record).filterMap
          (fun i => dictGet i "UserId")).toFinset.card :=
  (C9_duplicate_identifiers_last_wins testClient "d-store"
      [[user1, user1b], [user2]] [[acct1], [acct2]]
      [(Value.str "u-1", user1b), (Value.str "u-2", user2)]
      [(Value.str "111111111111", acct1), (Value.str "222222222222", acct2)]
      rfl rfl rfl rfl).1.2.2

/-- Witness for C6: three pages of two groups flatten to six items. -/
theorem C6_witness :
    ([[grp "g-1", grp "g-2"], [grp "g-3", grp "g-4"], [grp "g-5", grp "g-6"]] :
        List (List Record)).flatten.length = 3 * 2 :=
  (C6_pagination_drains_all_pages testClient "d-store" "arn:inst" 3 2
      [[grp "g-1", grp "g-2"], [grp "g-3", grp "g-4"], [grp "g-5", grp "g-6"]]
      [["arn:A", "arn:B"]] rfl rfl).2.2.1 rfl (by decide)

/-- Witness for C4 at the record for `arn:A`. -/
theorem C4_witness :
    (dictGet psRecordA "inline_policy").isSome ∧
    (dictGet psRecordA "managed_policies ").isSome :=
  (C4_keys_and_mandatory_fields testClient ["arn:A", "arn:B"] "arn:inst"
      testPsLookup rfl).2 "arn:A" psRecordA rfl

/-- Witness for C2: the truthy boundary fetched for `arn:B` is not stored. -/
theorem C2_witness :
    dictGet psRecordB "permission_boundary" = none :=
  (C2_boundary_written_only_when_falsy testClient ["arn:A", "arn:B"] "arn:inst"
      testPsLookup
      (by
        intro ps desc h
        have h2 := Except.ok.inj h
        subst h2
        rfl)
      rfl).1 "arn:B" (by decide)
    (Value.obj (Fields.fcons "ManagedPolicyArn" (Value.str "arn:mp") Fields.fnil))
    rfl rfl psRecordB rfl

/-- Witness for C3: the not-found boundary of `arn:A` is recovered and the
    sentinel `False` is stored. -/
theorem C3_witness :
    ∃ m, describe_permissions_sets testClient ["arn:A", "arn:B"] "arn:inst" = Except.ok m ∧
      ∃ r, dictGet m "arn:A" = some r ∧
        dictGet r "permission_boundary" = some (Value.bool false) :=
  C3_boundary_not_found_recovered testClient ["arn:A", "arn:B"] "arn:inst"
    (by
      intro ps hps
      refine ⟨⟨_, rfl⟩, ⟨_, rfl⟩, ⟨_, rfl⟩, ?_⟩
      rcases List.mem_cons.mp hps with he | hps2
      · subst he
        exact Or.inr rfl
      · rcases List.mem_cons.mp hps2 with he | hps3
        · subst he
          exact Or.inl ⟨_, rfl⟩
        · simp at hps3)
    "arn:A" (by decide) rfl

/-- Witness for C7: a failing group pagination propagates unchanged, and a
    successful aggregation implies the underlying describe call succeeded. -/
theorem C7_witness :
    list_groups errClient "d-store" = Except.error (Err.other "boom") ∧
    (∃ desc, testClient.describe_permission_set "arn:inst" "arn:A" = Except.ok desc) :=
  ⟨(C7_errors_propagate_uncaught errClient [] "arn:inst" "d-store" "u-1").2.1
      (Err.other "boom") rfl,
    ((C7_errors_propagate_uncaught testClient ["arn:A", "arn:B"] "arn:inst" "d-store"
        "u-1").1 testPsLookup rfl "arn:A" (by decide)).1⟩
